import Mathlib

/-!
Verification of the Wave Function Collapse terrain generator
(`wfc_terrain_generator.py`): a shallow embedding of the grid solver
(`WaveFunctionCollapse`) and its placement pass, with theorems about the
claims of the specification.

Randomness is modelled by explicit oracle streams: each call to
`random.choice(lst)` consumes one natural number `i` and returns
`lst[i % lst.length]`; each call to `random.random()` / `random.uniform`
consumes one rational draw.
-/

/-- `TERRAIN_TYPES`: the terrain module tags of the generator. -/
inductive TerrainType where
  | mountain_peak
  | slope
  | plateau
  | valley_floor
  | riverbed
  | shoreline
deriving DecidableEq, Repr

open TerrainType

/-- The list `TERRAIN_TYPES`, in source order. -/
def TERRAIN_TYPES : List TerrainType :=
  [mountain_peak, slope, plateau, valley_floor, riverbed, shoreline]

/-- `CONNECTION_RULES`: which terrain types may be adjacent (source order). -/
def CONNECTION_RULES : TerrainType → List TerrainType
  | .mountain_peak => [mountain_peak, slope]
  | .slope => [mountain_peak, slope, plateau, valley_floor]
  | .plateau => [slope, plateau, valley_floor]
  | .valley_floor => [slope, plateau, valley_floor, riverbed]
  | .riverbed => [valley_floor, riverbed, shoreline]
  | .shoreline => [riverbed, shoreline]

/-- `HEIGHT_VALUES`: relative height value of each terrain type. -/
def HEIGHT_VALUES : TerrainType → ℚ
  | .mountain_peak => 3
  | .slope => 2
  | .plateau => 3/2
  | .valley_floor => 1
  | .riverbed => 1/2
  | .shoreline => 1/5

/-- A grid cell: either a collapsed terrain type (a string in the Python
grid) or a superposition, i.e. the list of still-possible types. -/
inductive Cell where
  | collapsed (t : TerrainType)
  | superpos (cands : List TerrainType)
deriving DecidableEq, Repr

/-- The grid `self.grid`: outer index `x`, inner index `y`. -/
abbrev Grid := List (List Cell)

/-- Read `self.grid[x, y]`; out-of-bounds reads default to `superpos []`
(they never occur in the program). -/
def getCell (g : Grid) (x y : ℕ) : Cell :=
  (g.getD x []).getD y (.superpos [])

/-- Write `self.grid[x, y] = c` (no-op out of bounds). -/
def setCell (g : Grid) (x y : ℕ) (c : Cell) : Grid :=
  g.set x ((g.getD x []).set y c)

/-- `__init__`: every cell starts in superposition of all terrain types. -/
def initGrid (n : ℕ) : Grid :=
  List.replicate n (List.replicate n (.superpos TERRAIN_TYPES))

/-- `get_neighbors(x, y)`: left, right, down, up, omitting out-of-bounds. -/
def getNeighbors (n x y : ℕ) : List (ℕ × ℕ) :=
  (if 0 < x then [(x - 1, y)] else []) ++
  (if x + 1 < n then [(x + 1, y)] else []) ++
  (if 0 < y then [(x, y - 1)] else []) ++
  (if y + 1 < n then [(x, y + 1)] else [])

/-- All grid coordinates in scan order (`for x: for y:`). -/
def coords (n : ℕ) : List (ℕ × ℕ) :=
  (List.range n).flatMap fun x => (List.range n).map fun y => (x, y)

/-- Number of candidates a cell contributes (collapsed cells contribute 0). -/
def candWeight : Cell → ℕ
  | .collapsed _ => 0
  | .superpos l => l.length

/-- Total number of candidates in the grid; the termination measure of
constraint propagation. -/
def candCount (g : Grid) : ℕ :=
  (g.map fun row => (row.map candWeight).sum).sum

/-- `isinstance(cell, list)`. -/
def isSuperpos : Cell → Bool
  | .collapsed _ => false
  | .superpos _ => true

/-- `1` for a superposition cell, `0` for a collapsed one. -/
def superposWeight (c : Cell) : ℕ :=
  if isSuperpos c then 1 else 0

/-- Number of cells still in superposition. -/
def superposCount (g : Grid) : ℕ :=
  (g.map fun row => (row.map superposWeight).sum).sum

/-- `1` for a collapsed cell, `0` for a superposition one. -/
def collapsedWeight (c : Cell) : ℕ :=
  if isSuperpos c then 0 else 1

/-- Number of collapsed cells. -/
def collapsedCount (g : Grid) : ℕ :=
  (g.map fun row => (row.map collapsedWeight).sum).sum

/-- `[t for t in neighbor_cell if t in valid_neighbors]`. -/
def filterCands (valid l : List TerrainType) : List TerrainType :=
  l.filter fun t => t ∈ valid

/-- One neighbor update of `propagate_constraints`: intersect the
neighbor's candidates with the valid neighbors of terrain type `t`;
if it strictly shrank, update the grid and push the neighbor. -/
def stepNeighbor (t : TerrainType) (acc : Grid × List (ℕ × ℕ)) (pos : ℕ × ℕ) :
    Grid × List (ℕ × ℕ) :=
  match getCell acc.1 pos.1 pos.2 with
  | .collapsed _ => acc
  | .superpos l =>
    let l' := filterCands (CONNECTION_RULES t) l
    if l'.length < l.length then
      (setCell acc.1 pos.1 pos.2 (.superpos l'), pos :: acc.2)
    else acc

/-- Sum of a cell weight over the whole grid. -/
def gridSum (f : Cell → ℕ) (g : Grid) : ℕ :=
  (g.map fun row => (row.map f).sum).sum

/-- Well-formed dimensions: an `n × n` grid. -/
def Dims (n : ℕ) (g : Grid) : Prop :=
  g.length = n ∧ ∀ row ∈ g, row.length = n

/-- The entropy of a cell: the size of its candidate set. -/
def cellEntropy (g : Grid) (p : ℕ × ℕ) : ℕ :=
  candWeight (getCell g p.1 p.2)

/-- A cell that `find_min_entropy_cell` considers: still a non-empty
superposition (`isinstance(cell, list) and len(cell) > 0`). -/
def candidateCell (g : Grid) (p : ℕ × ℕ) : Bool :=
  match getCell g p.1 p.2 with
  | .superpos l => decide (0 < l.length)
  | .collapsed _ => false

/-- Invariant of the scan in `find_min_entropy_cell` after processing the
cells in `P`: `none` iff no candidate seen, else the accumulator holds the
minimum entropy over `P` and exactly the cells attaining it, in order. -/
def EntInv (g : Grid) (P : List (ℕ × ℕ)) : Option (ℕ × List (ℕ × ℕ)) → Prop
  | none => ∀ p ∈ P, candidateCell g p = false
  | some (m, cs) =>
      cs ≠ [] ∧
      (∀ p ∈ cs, p ∈ P ∧ candidateCell g p = true ∧ cellEntropy g p = m) ∧
      (∀ p ∈ P, candidateCell g p = true → m ≤ cellEntropy g p) ∧
      (∀ p ∈ P, candidateCell g p = true → cellEntropy g p = m → p ∈ cs)

/-! ## The solver -/

/-- The worklist loop of `propagate_constraints`. `fuel` bounds the number
of iterations; starting from `4 * candCount g + stack.length` it is never
exhausted, because every push strictly shrinks a candidate set
(`propagateAux_fuel_irrelevant` below). -/
def propagateAux (n : ℕ) : ℕ → Grid → List (ℕ × ℕ) → Grid
  | 0, g, _ => g
  | _ + 1, g, [] => g
  | fuel + 1, g, c :: rest =>
    match getCell g c.1 c.2 with
    | .superpos _ => propagateAux n fuel g rest
    | .collapsed t =>
      let r := (getNeighbors n c.1 c.2).foldl (stepNeighbor t) (g, rest)
      propagateAux n fuel r.1 r.2

/-- `propagate_constraints(x, y)`. -/
def propagateConstraints (n : ℕ) (g : Grid) (x y : ℕ) : Grid :=
  propagateAux n (4 * candCount g + 1) g [(x, y)]

/-- The unconditional part of `collapse_cell`: set the cell to the given
type and propagate constraints (terrain realization is a pure side
effect on the host and is not modelled). -/
def doCollapse (n : ℕ) (g : Grid) (x y : ℕ) (t : TerrainType) : Grid :=
  propagateConstraints n (setCell g x y (.collapsed t)) x y

/-- `collapse_cell(x, y, terrain_type)`: returns the Python return value,
the new grid, and the unconsumed oracle. With an explicit
`terrain_type` argument the source performs no check at all. -/
def collapseCell (n : ℕ) (g : Grid) (x y : ℕ) (ty : Option TerrainType) (o : List ℕ) :
    Bool × Grid × List ℕ :=
  match ty with
  | some t => (true, doCollapse n g x y t, o)
  | none =>
    match getCell g x y with
    | .collapsed _ => (false, g, o)
    | .superpos [] => (false, g, o)
    | .superpos (a :: as) =>
      let t := (a :: as).getD (o.headD 0 % (a :: as).length) a
      (true, doCollapse n g x y t, o.tail)

/-- One step of the scan in `find_min_entropy_cell`, tracking the current
minimum entropy and the cells attaining it. -/
def entropyStep (g : Grid) (acc : Option (ℕ × List (ℕ × ℕ))) (p : ℕ × ℕ) :
    Option (ℕ × List (ℕ × ℕ)) :=
  match getCell g p.1 p.2 with
  | .collapsed _ => acc
  | .superpos l =>
    if 0 < l.length then
      match acc with
      | none => some (l.length, [p])
      | some (m, cs) =>
        if l.length < m then some (l.length, [p])
        else if l.length = m then some (m, cs ++ [p])
        else some (m, cs)
    else acc

/-- The `min_cells` list of `find_min_entropy_cell`: all non-empty
superposition cells of globally minimal entropy, in scan order. -/
def minEntropyCells (n : ℕ) (g : Grid) : List (ℕ × ℕ) :=
  match (coords n).foldl (entropyStep g) none with
  | none => []
  | some (_, cs) => cs

/-- `find_min_entropy_cell()`: `None` when `min_cells` is empty, else a
random choice among the minimal-entropy cells. -/
def findMinEntropyCell (n : ℕ) (g : Grid) (o : List ℕ) : Option (ℕ × ℕ) :=
  match minEntropyCells n g with
  | [] => none
  | c0 :: cs => some ((c0 :: cs).getD (o.headD 0 % (c0 :: cs).length) c0)

/-- The main WFC loop of `run`: find a minimum-entropy cell, collapse it
to a random remaining candidate, repeat until none remain. `fuel` bounds
the iterations; `superposCount g` always suffices because every iteration
collapses one cell. The two middle branches are unreachable: a member of
`min_cells` is always a non-empty superposition cell. -/
def loopWFC (n : ℕ) : ℕ → Grid → List ℕ → Grid
  | 0, g, _ => g
  | fuel + 1, g, o =>
    match minEntropyCells n g with
    | [] => g
    | c0 :: cs =>
      let c := (c0 :: cs).getD (o.headD 0 % (c0 :: cs).length) c0
      match getCell g c.1 c.2 with
      | .collapsed _ => g
      | .superpos [] => g
      | .superpos (a :: as) =>
        let t := (a :: as).getD (o.tail.headD 0 % (a :: as).length) a
        loopWFC n fuel (doCollapse n g c.1 c.2 t) o.tail.tail

/-- `run()` up to the end of the main loop: seed the grid center with
`mountain_peak`, then collapse minimum-entropy cells until none remain. -/
def runGrid (n : ℕ) (o : List ℕ) : Grid :=
  let g1 := doCollapse n (initGrid n) (n / 2) (n / 2) mountain_peak
  loopWFC n (superposCount g1) g1 o

/-! ## The placement pass -/

/-- An entry of `OBJECT_TYPES`. -/
structure ObjectSpec where
  valid_terrain : List TerrainType
  min_slope : ℚ
  max_slope : ℚ
  size : ℚ
deriving DecidableEq, Repr

/-- The placeable environmental object kinds. -/
inductive ObjKind where
  | house
  | tree
  | rock
deriving DecidableEq, Repr

/-- `OBJECT_TYPES`, in source (insertion) order. -/
def OBJECT_TYPES : List (ObjKind × ObjectSpec) :=
  [(.house, ⟨[plateau, valley_floor], 0, 1/5, 1/2⟩),
   (.tree, ⟨[slope, plateau, valley_floor], 0, 3/5, 3/10⟩),
   (.rock, ⟨[mountain_peak, slope, plateau, valley_floor, shoreline], 0, 4/5, 1/5⟩)]

/-- An entry of `env_objects_data`: object type, continuous position
(cell coordinate plus sub-cell offset), and the host cell's terrain. -/
structure PlacementRecord where
  kind : ObjKind
  posX : ℚ
  posY : ℚ
  terrain : TerrainType
deriving DecidableEq, Repr

/-- The location computed by `create_env_object`: the continuous grid
position scaled by the cell size, at height `HEIGHT_VALUES[t] * 0.5`. -/
structure RealizeCall where
  kind : ObjKind
  locX : ℚ
  locY : ℚ
  locZ : ℚ
deriving DecidableEq, Repr

/-- `terrain_type in obj_props["valid_terrain"]`: a cell that is still a
Python list is never a member of a list of type names. -/
def cellMatches (c : Cell) (valid : List TerrainType) : Bool :=
  match c with
  | .collapsed t => decide (t ∈ valid)
  | .superpos _ => false

/-- `HEIGHT_VALUES[cell]`: looking up a list (a superposition cell)
raises; modelled as `none`. -/
def heightOf : Cell → Option ℚ
  | .collapsed t => some (HEIGHT_VALUES t)
  | .superpos _ => none

/-- The `height_diffs` list: `abs(HEIGHT_VALUES[terrain_type] -
HEIGHT_VALUES[n_terrain])` per neighbor; any lookup of a superposition
cell raises, modelled as `none`. -/
def heightDiffs (g : Grid) (x y : ℕ) : List (ℕ × ℕ) → Option (List ℚ)
  | [] => some []
  | p :: rest =>
    match heightOf (getCell g x y), heightOf (getCell g p.1 p.2),
        heightDiffs g x y rest with
    | some h0, some hn, some ds => some (|h0 - hn| :: ds)
    | _, _, _ => none

/-- The slope estimate of `place_environmental_objects`: maximum absolute
height difference to the in-bounds neighbors, `0` with no neighbors
(`max(height_diffs) if height_diffs else 0`; the fold with base `0`
agrees since all differences are non-negative). -/
def cellSlope (n : ℕ) (g : Grid) (x y : ℕ) : Option ℚ :=
  (heightDiffs g x y (getNeighbors n x y)).map fun ds => ds.foldl max 0

/-- The body of the object loop for one `(cell, object type)` pair:
eligibility check, one placement coin at probability `0.3`, then the
sub-cell offsets, the `env_objects_data` record and the
`create_env_object` call. -/
def tryPlaceObj (cellSize : ℚ) (cell : Cell) (slope : ℚ) (x y : ℕ)
    (ok : ObjKind × ObjectSpec) (o : List ℚ) :
    List PlacementRecord × List RealizeCall × List ℚ :=
  if cellMatches cell ok.2.valid_terrain ∧ ok.2.min_slope ≤ slope ∧ slope ≤ ok.2.max_slope then
    if o.headD 0 < 3/10 then
      let ox := o.tail.headD 0
      let oy := o.tail.tail.headD 0
      match cell with
      | .collapsed t =>
        ([⟨ok.1, (x : ℚ) + ox, (y : ℚ) + oy, t⟩],
         [⟨ok.1, ((x : ℚ) + ox) * cellSize, ((y : ℚ) + oy) * cellSize,
           HEIGHT_VALUES t * (1/2)⟩],
         o.tail.tail.tail)
      | .superpos _ => ([], [], o.tail.tail.tail)
    else ([], [], o.tail)
  else ([], [], o)

/-- The object loop over `OBJECT_TYPES` for one cell. -/
def placeCellObjs (cellSize : ℚ) (cell : Cell) (slope : ℚ) (x y : ℕ) :
    List (ObjKind × ObjectSpec) → List ℚ →
    List PlacementRecord × List RealizeCall × List ℚ
  | [], o => ([], [], o)
  | ok :: rest, o =>
    let r1 := tryPlaceObj cellSize cell slope x y ok o
    let r2 := placeCellObjs cellSize cell slope x y rest r1.2.2
    (r1.1 ++ r2.1, r1.2.1 ++ r2.2.1, r2.2.2)

/-- The cell loop of `place_environmental_objects`; `none` models the
exception raised by the height lookup on a superposition cell. -/
def placeLoop (n : ℕ) (g : Grid) (cellSize : ℚ) :
    List (ℕ × ℕ) → List ℚ → Option (List PlacementRecord × List RealizeCall)
  | [], _ => some ([], [])
  | p :: rest, o =>
    match cellSlope n g p.1 p.2 with
    | none => none
    | some s =>
      let r1 := placeCellObjs cellSize (getCell g p.1 p.2) s p.1 p.2 OBJECT_TYPES o
      match placeLoop n g cellSize rest r1.2.2 with
      | none => none
      | some (recs, reals) => some (r1.1 ++ recs, r1.2.1 ++ reals)

/-- `place_environmental_objects()`. -/
def placeEnvironmentalObjects (n : ℕ) (g : Grid) (cellSize : ℚ) (o : List ℚ) :
    Option (List PlacementRecord × List RealizeCall) :=
  placeLoop n g cellSize (coords n) o

/-- A complete `run()`: the solve loop followed by the placement pass.
Outputs the final grid and the placement result. -/
def runFull (n : ℕ) (cellSize : ℚ) (o : List ℕ) (po : List ℚ) :
    Grid × Option (List PlacementRecord × List RealizeCall) :=
  let g := runGrid n o
  (g, placeEnvironmentalObjects n g cellSize po)

/-- A 3×3 grid state in which collapsing `(0,0)` to `mountain_peak`
empties the candidate set of `(0,1)`: its only candidate `plateau` is not
in `mountain_peak`'s adjacency set. -/
def contraGrid : Grid :=
  [[.superpos [mountain_peak], .superpos [plateau], .collapsed slope],
   [.collapsed slope, .collapsed slope, .collapsed slope],
   [.collapsed slope, .collapsed slope, .collapsed slope]]

/-- A fully pre-collapsed 3×3 grid. -/
def preCollapsedGrid : Grid :=
  List.replicate 3 (List.replicate 3 (.collapsed plateau))

/-- A fully collapsed 3×3 grid of `slope` cells. -/
def c4Grid : Grid :=
  List.replicate 3 (List.replicate 3 (.collapsed slope))

/-- A 3×3 grid whose `(0,0)` cell has an empty candidate set. -/
def c6Grid : Grid :=
  [[.superpos [], .collapsed slope, .collapsed slope],
   [.collapsed slope, .collapsed slope, .collapsed slope],
   [.collapsed slope, .collapsed slope, .collapsed slope]]

/-! ## Basic list and grid lemmas -/

theorem set_getD_self {α : Type*} (l : List α) (i : ℕ) (d : α) (h : i < l.length) :
    l.set i (l.getD i d) = l := by
  apply List.ext_getElem?
  intro j
  rw [List.getElem?_set]
  by_cases hij : i = j
  · subst hij
    rw [if_pos rfl, if_pos h, List.getD_eq_getElem l d h, List.getElem?_eq_getElem h]
  · rw [if_neg hij]

theorem getD_set_ne {α : Type*} (l : List α) (i j : ℕ) (a d : α) (h : i ≠ j) :
    (l.set i a).getD j d = l.getD j d := by
  rw [List.getD_eq_getElem?_getD, List.getD_eq_getElem?_getD, List.getElem?_set_ne h]

theorem getD_set_self {α : Type*} (l : List α) (i : ℕ) (a d : α) (h : i < l.length) :
    (l.set i a).getD i d = a := by
  rw [List.getD_eq_getElem?_getD, List.getElem?_set_self h]
  rfl

theorem getCell_oob (g : Grid) (x y : ℕ)
    (h : ¬(x < g.length ∧ y < (g.getD x []).length)) : getCell g x y = .superpos [] := by
  unfold getCell
  rcases Nat.lt_or_ge x g.length with hx | hx
  · have hy : (g.getD x []).length ≤ y := by
      rcases Nat.lt_or_ge y (g.getD x []).length with hy | hy
      · exact absurd ⟨hx, hy⟩ h
      · exact hy
    rw [List.getD_eq_getElem?_getD (g.getD x []), List.getElem?_eq_none hy]
    rfl
  · rw [List.getD_eq_getElem?_getD g, List.getElem?_eq_none hx]
    rfl

theorem inBounds_of_getCell (g : Grid) (x y : ℕ) (l : List TerrainType)
    (h : getCell g x y = .superpos l) (hne : l ≠ []) :
    x < g.length ∧ y < (g.getD x []).length := by
  by_contra hb
  rw [getCell_oob g x y hb] at h
  cases h
  exact hne rfl

theorem setCell_oob (g : Grid) (x y : ℕ) (c : Cell)
    (h : ¬(x < g.length ∧ y < (g.getD x []).length)) : setCell g x y c = g := by
  unfold setCell
  rcases Nat.lt_or_ge x g.length with hx | hx
  · have hy : (g.getD x []).length ≤ y := by
      rcases Nat.lt_or_ge y (g.getD x []).length with hy | hy
      · exact absurd ⟨hx, hy⟩ h
      · exact hy
    rw [List.set_eq_of_length_le hy, set_getD_self g x [] hx]
  · rw [List.set_eq_of_length_le hx]

theorem getCell_setCell_self (g : Grid) (x y : ℕ) (c : Cell)
    (hx : x < g.length) (hy : y < (g.getD x []).length) :
    getCell (setCell g x y c) x y = c := by
  unfold getCell setCell
  rw [getD_set_self g x _ [] hx, getD_set_self _ y c _ (by simpa using hy)]

theorem getCell_setCell_ne (g : Grid) (x y x' y' : ℕ) (c : Cell)
    (h : (x', y') ≠ (x, y)) :
    getCell (setCell g x y c) x' y' = getCell g x' y' := by
  unfold getCell setCell
  by_cases hx : x = x'
  · subst hx
    have hy : y ≠ y' := fun he => h (by rw [he])
    by_cases hxb : x < g.length
    · rw [getD_set_self g x _ [] hxb, getD_set_ne _ y y' c _ hy]
    · rw [List.set_eq_of_length_le (Nat.le_of_not_lt hxb)]
  · rw [getD_set_ne g x x' _ [] hx]

theorem length_setCell (g : Grid) (x y : ℕ) (c : Cell) :
    (setCell g x y c).length = g.length := by
  unfold setCell
  exact List.length_set g x _

theorem getD_setCell_length (g : Grid) (x y x' : ℕ) (c : Cell) :
    ((setCell g x y c).getD x' []).length = (g.getD x' []).length := by
  unfold setCell
  by_cases hx : x = x'
  · subst hx
    by_cases hxb : x < g.length
    · rw [getD_set_self g x _ [] hxb]
      exact List.length_set _ y c
    · rw [List.set_eq_of_length_le (Nat.le_of_not_lt hxb)]
  · rw [getD_set_ne g x x' _ [] hx]

/-- Additive effect of `List.set` on a mapped sum. -/
theorem sum_map_set {α : Type*} (f : α → ℕ) :
    ∀ (l : List α) (i : ℕ) (a d : α), i < l.length →
    ((l.set i a).map f).sum + f (l.getD i d) = (l.map f).sum + f a := by
  intro l
  induction l with
  | nil => intro i a d h; simp at h
  | cons b bs ih =>
    intro i a d h
    cases i with
    | zero =>
      simp only [List.set_cons_zero, List.map_cons, List.sum_cons, List.getD_cons_zero]
      omega
    | succ i =>
      have h' : i < bs.length := by simpa using h
      have := ih i a d h'
      simp only [List.set_cons_succ, List.map_cons, List.sum_cons, List.getD_cons_succ]
      omega

theorem gridSum_setCell (f : Cell → ℕ) (g : Grid) (x y : ℕ) (c : Cell)
    (hx : x < g.length) (hy : y < (g.getD x []).length) :
    gridSum f (setCell g x y c) + f (getCell g x y) = gridSum f g + f c := by
  have hinner := sum_map_set f (g.getD x []) y c (.superpos []) hy
  have houter := sum_map_set (fun row => (row.map f).sum) g x
      ((g.getD x []).set y c) [] hx
  dsimp only at houter
  unfold gridSum setCell getCell
  omega

theorem candCount_eq_gridSum (g : Grid) : candCount g = gridSum candWeight g := rfl

theorem superposCount_eq_gridSum (g : Grid) :
    superposCount g = gridSum superposWeight g := rfl

theorem collapsedCount_eq_gridSum (g : Grid) :
    collapsedCount g = gridSum collapsedWeight g := rfl

/-! ## Neighbor enumeration lemmas -/

theorem mem_getNeighbors_iff {n x y : ℕ} {p : ℕ × ℕ} :
    p ∈ getNeighbors n x y ↔
      (0 < x ∧ p = (x - 1, y)) ∨ (x + 1 < n ∧ p = (x + 1, y)) ∨
      (0 < y ∧ p = (x, y - 1)) ∨ (y + 1 < n ∧ p = (x, y + 1)) := by
  simp [getNeighbors, List.mem_ite_nil_right, and_assoc]

theorem getNeighbors_length_le (n x y : ℕ) : (getNeighbors n x y).length ≤ 4 := by
  unfold getNeighbors
  split_ifs <;> simp

theorem not_self_mem_getNeighbors (n x y : ℕ) : (x, y) ∉ getNeighbors n x y := by
  rw [mem_getNeighbors_iff]
  rintro (⟨h, he⟩ | ⟨h, he⟩ | ⟨h, he⟩ | ⟨h, he⟩) <;>
    (rw [Prod.mk.injEq] at he; omega)

theorem getNeighbors_nodup (n x y : ℕ) : (getNeighbors n x y).Nodup := by
  unfold getNeighbors
  split_ifs <;> simp [Prod.ext_iff] <;> omega

/-! ## Grid dimensions -/

theorem dims_initGrid (n : ℕ) : Dims n (initGrid n) := by
  constructor
  · simp [initGrid]
  · intro row hrow
    rw [List.eq_of_mem_replicate hrow]
    simp

theorem dims_setCell {n : ℕ} {g : Grid} (h : Dims n g) (x y : ℕ) (c : Cell) :
    Dims n (setCell g x y c) := by
  obtain ⟨h1, h2⟩ := h
  by_cases hx : x < g.length
  · constructor
    · rw [length_setCell, h1]
    · intro row hrow
      rcases List.mem_or_eq_of_mem_set hrow with hm | he
      · exact h2 row hm
      · subst he
        rw [List.length_set]
        refine h2 _ ?_
        rw [List.getD_eq_getElem g [] hx]
        exact List.getElem_mem hx
  · unfold setCell
    rw [List.set_eq_of_length_le (Nat.le_of_not_lt hx)]
    exact ⟨h1, h2⟩

theorem dims_inBounds {n : ℕ} {g : Grid} (h : Dims n g) {x y : ℕ}
    (hx : x < n) (hy : y < n) : x < g.length ∧ y < (g.getD x []).length := by
  obtain ⟨h1, h2⟩ := h
  have hxg : x < g.length := h1 ▸ hx
  have hrow : (g.getD x []).length = n := by
    refine h2 _ ?_
    rw [List.getD_eq_getElem g [] hxg]
    exact List.getElem_mem hxg
  exact ⟨hxg, hrow ▸ hy⟩


/-! ## Propagation lemmas -/

/-- How one cell may evolve under constraint propagation: collapsed cells
are untouched and superposition cells only lose candidates. -/
def PEvolves : Cell → Cell → Prop
  | .collapsed t, c' => c' = .collapsed t
  | .superpos l, .superpos l' => l'.Sublist l
  | .superpos _, .collapsed _ => False

theorem pEvolves_refl (c : Cell) : PEvolves c c := by
  cases c <;> simp [PEvolves]

theorem pEvolves_trans {a b c : Cell} (h1 : PEvolves a b) (h2 : PEvolves b c) :
    PEvolves a c := by
  cases a <;> cases b <;> cases c <;> simp_all [PEvolves]
  exact List.Sublist.trans h2 h1

theorem stepNeighbor_spec (t : TerrainType) (acc : Grid × List (ℕ × ℕ)) (pos : ℕ × ℕ) :
    stepNeighbor t acc pos = acc ∨
    ∃ l, getCell acc.1 pos.1 pos.2 = .superpos l ∧
      (filterCands (CONNECTION_RULES t) l).length < l.length ∧
      stepNeighbor t acc pos =
        (setCell acc.1 pos.1 pos.2 (.superpos (filterCands (CONNECTION_RULES t) l)),
         pos :: acc.2) := by
  unfold stepNeighbor
  split
  · exact Or.inl rfl
  · rename_i l heq
    dsimp only
    split
    · rename_i hlt
      exact Or.inr ⟨l, heq, hlt, rfl⟩
    · exact Or.inl rfl

theorem candCount_stepNeighbor (t : TerrainType) (acc : Grid × List (ℕ × ℕ))
    (pos : ℕ × ℕ) :
    stepNeighbor t acc pos = acc ∨
      (candCount (stepNeighbor t acc pos).1 < candCount acc.1 ∧
       (stepNeighbor t acc pos).2 = pos :: acc.2) := by
  rcases stepNeighbor_spec t acc pos with h | ⟨l, hl, hlt, he⟩
  · exact Or.inl h
  · right
    have hne : l ≠ [] := by
      intro h0
      rw [h0] at hlt
      simp [filterCands] at hlt
    obtain ⟨hx, hy⟩ := inBounds_of_getCell acc.1 pos.1 pos.2 l hl hne
    have hsum := gridSum_setCell candWeight acc.1 pos.1 pos.2
        (.superpos (filterCands (CONNECTION_RULES t) l)) hx hy
    rw [hl] at hsum
    simp only [candWeight] at hsum
    rw [he]
    refine ⟨?_, rfl⟩
    simp only [candCount_eq_gridSum]
    omega

theorem foldl_stepNeighbor_measure (t : TerrainType) (ns : List (ℕ × ℕ)) :
    ∀ acc : Grid × List (ℕ × ℕ),
      (ns.foldl (stepNeighbor t) acc = acc ∨
        candCount (ns.foldl (stepNeighbor t) acc).1 < candCount acc.1) ∧
      (ns.foldl (stepNeighbor t) acc).2.length ≤ acc.2.length + ns.length := by
  induction ns with
  | nil => intro acc; exact ⟨Or.inl rfl, by simp⟩
  | cons p ps ih =>
    intro acc
    rw [List.foldl_cons]
    rcases candCount_stepNeighbor t acc p with h | ⟨hlt, hst⟩
    · rw [h]
      obtain ⟨ih1, ih2⟩ := ih acc
      refine ⟨ih1, ?_⟩
      simp only [List.length_cons]
      omega
    · obtain ⟨ih1, ih2⟩ := ih (stepNeighbor t acc p)
      constructor
      · right
        rcases ih1 with he | hlt2
        · rw [he]; exact hlt
        · exact lt_trans hlt2 hlt
      · have : (stepNeighbor t acc p).2.length = acc.2.length + 1 := by
          rw [hst]; simp
        simp only [List.length_cons]
        omega

theorem pEvolves_stepNeighbor (t : TerrainType) (acc : Grid × List (ℕ × ℕ))
    (pos q : ℕ × ℕ) :
    PEvolves (getCell acc.1 q.1 q.2) (getCell (stepNeighbor t acc pos).1 q.1 q.2) := by
  rcases stepNeighbor_spec t acc pos with h | ⟨l, hl, hlt, he⟩
  · rw [h]; exact pEvolves_refl _
  · rw [he]
    dsimp only
    by_cases hq : (q.1, q.2) = (pos.1, pos.2)
    · have hne : l ≠ [] := by
        intro h0
        rw [h0] at hlt
        simp [filterCands] at hlt
      obtain ⟨hx, hy⟩ := inBounds_of_getCell acc.1 pos.1 pos.2 l hl hne
      obtain ⟨hq1, hq2⟩ := Prod.mk.injEq .. ▸ hq
      rw [hq1, hq2, getCell_setCell_self _ _ _ _ hx hy, hl]
      exact List.filter_sublist l
    · rw [getCell_setCell_ne _ _ _ _ _ _ hq]
      exact pEvolves_refl _

theorem pEvolves_foldl (t : TerrainType) (ns : List (ℕ × ℕ)) :
    ∀ (acc : Grid × List (ℕ × ℕ)) (q : ℕ × ℕ),
      PEvolves (getCell acc.1 q.1 q.2)
        (getCell (ns.foldl (stepNeighbor t) acc).1 q.1 q.2) := by
  induction ns with
  | nil => intro acc q; exact pEvolves_refl _
  | cons p ps ih =>
    intro acc q
    rw [List.foldl_cons]
    exact pEvolves_trans (pEvolves_stepNeighbor t acc p q) (ih (stepNeighbor t acc p) q)

theorem pEvolves_propagateAux (n : ℕ) :
    ∀ (fuel : ℕ) (g : Grid) (st : List (ℕ × ℕ)) (q : ℕ × ℕ),
      PEvolves (getCell g q.1 q.2) (getCell (propagateAux n fuel g st) q.1 q.2) := by
  intro fuel
  induction fuel with
  | zero => intro g st q; exact pEvolves_refl _
  | succ fuel ih =>
    intro g st q
    match st with
    | [] => exact pEvolves_refl _
    | c :: rest =>
      cases hcell : getCell g c.1 c.2 with
      | superpos l =>
        simp only [propagateAux, hcell]
        exact ih g rest q
      | collapsed t =>
        simp only [propagateAux, hcell]
        exact pEvolves_trans (pEvolves_foldl t (getNeighbors n c.1 c.2) (g, rest) q)
          (ih _ _ q)

/-- Popping a stack of positions that are all in superposition changes
nothing: such pops are skipped. -/
theorem propagateAux_superpos_stack (n : ℕ) :
    ∀ (fuel : ℕ) (g : Grid) (st : List (ℕ × ℕ)),
      (∀ c ∈ st, isSuperpos (getCell g c.1 c.2)) → propagateAux n fuel g st = g := by
  intro fuel
  induction fuel with
  | zero => intro g st _; rfl
  | succ fuel ih =>
    intro g st h
    match st with
    | [] => rfl
    | c :: rest =>
      have hc := h c (by simp)
      cases hcell : getCell g c.1 c.2 with
      | collapsed t => rw [hcell] at hc; simp [isSuperpos] at hc
      | superpos l =>
        simp only [propagateAux, hcell]
        exact ih g rest fun d hd => h d (by simp [hd])

/-- Propagation preserves any cell weight that does not distinguish
superposition sets (it never collapses or un-collapses a cell). -/
theorem gridSum_stepNeighbor (f : Cell → ℕ)
    (hf : ∀ l l', f (.superpos l) = f (.superpos l'))
    (t : TerrainType) (acc : Grid × List (ℕ × ℕ)) (pos : ℕ × ℕ) :
    gridSum f (stepNeighbor t acc pos).1 = gridSum f acc.1 := by
  rcases stepNeighbor_spec t acc pos with h | ⟨l, hl, hlt, he⟩
  · rw [h]
  · rw [he]
    dsimp only
    have hne : l ≠ [] := by
      intro h0
      rw [h0] at hlt
      simp [filterCands] at hlt
    obtain ⟨hx, hy⟩ := inBounds_of_getCell acc.1 pos.1 pos.2 l hl hne
    have hsum := gridSum_setCell f acc.1 pos.1 pos.2
        (.superpos (filterCands (CONNECTION_RULES t) l)) hx hy
    rw [hl] at hsum
    have := hf l (filterCands (CONNECTION_RULES t) l)
    omega

theorem gridSum_foldl_stepNeighbor (f : Cell → ℕ)
    (hf : ∀ l l', f (.superpos l) = f (.superpos l'))
    (t : TerrainType) (ns : List (ℕ × ℕ)) :
    ∀ acc : Grid × List (ℕ × ℕ),
      gridSum f (ns.foldl (stepNeighbor t) acc).1 = gridSum f acc.1 := by
  induction ns with
  | nil => intro acc; rfl
  | cons p ps ih =>
    intro acc
    rw [List.foldl_cons, ih (stepNeighbor t acc p), gridSum_stepNeighbor f hf]

theorem gridSum_propagateAux (f : Cell → ℕ)
    (hf : ∀ l l', f (.superpos l) = f (.superpos l')) (n : ℕ) :
    ∀ (fuel : ℕ) (g : Grid) (st : List (ℕ × ℕ)),
      gridSum f (propagateAux n fuel g st) = gridSum f g := by
  intro fuel
  induction fuel with
  | zero => intro g st; rfl
  | succ fuel ih =>
    intro g st
    match st with
    | [] => rfl
    | c :: rest =>
      cases hcell : getCell g c.1 c.2 with
      | superpos l =>
        simp only [propagateAux, hcell]
        exact ih g rest
      | collapsed t =>
        simp only [propagateAux, hcell]
        rw [ih, gridSum_foldl_stepNeighbor f hf]

theorem superposCount_propagateAux (n fuel : ℕ) (g : Grid) (st : List (ℕ × ℕ)) :
    superposCount (propagateAux n fuel g st) = superposCount g :=
  gridSum_propagateAux superposWeight (fun _ _ => rfl) n fuel g st

/-! ## Dimension preservation -/

theorem dims_stepNeighbor {n : ℕ} {acc : Grid × List (ℕ × ℕ)} (h : Dims n acc.1)
    (t : TerrainType) (pos : ℕ × ℕ) : Dims n (stepNeighbor t acc pos).1 := by
  rcases stepNeighbor_spec t acc pos with h1 | ⟨l, hl, hlt, he⟩
  · rw [h1]; exact h
  · rw [he]; exact dims_setCell h _ _ _

theorem dims_foldl_stepNeighbor {n : ℕ} (t : TerrainType) (ns : List (ℕ × ℕ)) :
    ∀ acc : Grid × List (ℕ × ℕ), Dims n acc.1 →
      Dims n (ns.foldl (stepNeighbor t) acc).1 := by
  induction ns with
  | nil => intro acc h; exact h
  | cons p ps ih =>
    intro acc h
    rw [List.foldl_cons]
    exact ih _ (dims_stepNeighbor h t p)

theorem dims_propagateAux {n : ℕ} (m : ℕ) :
    ∀ (fuel : ℕ) (g : Grid) (st : List (ℕ × ℕ)), Dims n g →
      Dims n (propagateAux m fuel g st) := by
  intro fuel
  induction fuel with
  | zero => intro g st h; exact h
  | succ fuel ih =>
    intro g st h
    match st with
    | [] => exact h
    | c :: rest =>
      cases hcell : getCell g c.1 c.2 with
      | superpos l =>
        simp only [propagateAux, hcell]
        exact ih g rest h
      | collapsed t =>
        simp only [propagateAux, hcell]
        exact ih _ _ (dims_foldl_stepNeighbor t _ _ h)

theorem dims_doCollapse {n : ℕ} {g : Grid} (h : Dims n g) (x y : ℕ) (t : TerrainType) :
    Dims n (doCollapse n g x y t) :=
  dims_propagateAux n _ _ _ (dims_setCell h x y _)

/-! ## Corollaries of the pointwise evolution -/

theorem collapsed_propagateAux {n fuel : ℕ} {g : Grid} {st : List (ℕ × ℕ)}
    {x y : ℕ} {t : TerrainType} (h : getCell g x y = .collapsed t) :
    getCell (propagateAux n fuel g st) x y = .collapsed t := by
  have hp := pEvolves_propagateAux n fuel g st (x, y)
  rw [h] at hp
  exact hp

theorem superpos_propagateAux {n fuel : ℕ} {g : Grid} {st : List (ℕ × ℕ)}
    {x y : ℕ} {l : List TerrainType} (h : getCell g x y = .superpos l) :
    ∃ l', getCell (propagateAux n fuel g st) x y = .superpos l' ∧ l'.Sublist l := by
  have hp := pEvolves_propagateAux n fuel g st (x, y)
  rw [h] at hp
  cases hc : getCell (propagateAux n fuel g st) x y with
  | collapsed u => rw [hc] at hp; exact hp.elim
  | superpos l' => rw [hc] at hp; exact ⟨l', rfl, hp⟩

/-- `collapse_cell` with `terrain_type=None` is a failing no-op on a
collapsed cell or an empty superposition. -/
theorem collapseCell_none_noop (n : ℕ) (g : Grid) (x y : ℕ) (o : List ℕ)
    (h : (∃ t, getCell g x y = .collapsed t) ∨ getCell g x y = .superpos []) :
    collapseCell n g x y none o = (false, g, o) := by
  unfold collapseCell
  rcases h with ⟨t, ht⟩ | ht <;> rw [ht]

/-! ## Exact characterization of one propagation round -/

theorem filterCands_eq_of_not_lt {t : TerrainType} {l : List TerrainType}
    (h : ¬(filterCands (CONNECTION_RULES t) l).length < l.length) :
    filterCands (CONNECTION_RULES t) l = l := by
  have hsub : (filterCands (CONNECTION_RULES t) l).Sublist l := List.filter_sublist l
  exact hsub.eq_of_length (by have := hsub.length_le; omega)

theorem foldl_stepNeighbor_char (t : TerrainType) :
    ∀ (ns : List (ℕ × ℕ)) (g : Grid) (st : List (ℕ × ℕ)), ns.Nodup →
      (∀ q : ℕ × ℕ, q ∉ ns →
        getCell (ns.foldl (stepNeighbor t) (g, st)).1 q.1 q.2 = getCell g q.1 q.2) ∧
      (∀ p ∈ ns, ∀ l, getCell g p.1 p.2 = .superpos l →
        getCell (ns.foldl (stepNeighbor t) (g, st)).1 p.1 p.2 =
          .superpos (filterCands (CONNECTION_RULES t) l)) ∧
      (∀ p ∈ ns, ∀ u, getCell g p.1 p.2 = .collapsed u →
        getCell (ns.foldl (stepNeighbor t) (g, st)).1 p.1 p.2 = .collapsed u) ∧
      (∀ q ∈ (ns.foldl (stepNeighbor t) (g, st)).2, q ∈ st ∨
        isSuperpos (getCell (ns.foldl (stepNeighbor t) (g, st)).1 q.1 q.2) = true) := by
  intro ns
  induction ns with
  | nil =>
    intro g st _
    refine ⟨fun q _ => rfl, by simp, by simp, fun q hq => Or.inl hq⟩
  | cons p ps ih =>
    intro g st hnd
    have hpps : p ∉ ps := (List.nodup_cons.mp hnd).1
    have hndt : ps.Nodup := (List.nodup_cons.mp hnd).2
    rw [List.foldl_cons]
    cases hcell : getCell g p.1 p.2 with
    | collapsed u =>
      have hstep : stepNeighbor t (g, st) p = (g, st) := by
        unfold stepNeighbor
        rw [hcell]
      rw [hstep]
      obtain ⟨ih1, ih2, ih3, ih4⟩ := ih g st hndt
      refine ⟨fun q hq => ih1 q (fun hm => hq (by simp [hm])), ?_, ?_, ih4⟩
      · intro p' hp' l hl
        rcases List.mem_cons.mp hp' with he | hm
        · subst he
          rw [hcell] at hl
          cases hl
        · exact ih2 p' hm l hl
      · intro p' hp' u' hu'
        rcases List.mem_cons.mp hp' with he | hm
        · subst he
          rw [hcell] at hu'
          cases hu'
          rw [ih1 p' hpps, hcell]
        · exact ih3 p' hm u' hu'
    | superpos l₀ =>
      by_cases hsh : (filterCands (CONNECTION_RULES t) l₀).length < l₀.length
      · -- the candidate set strictly shrinks: update and push
        have hne : l₀ ≠ [] := by
          intro h0
          rw [h0] at hsh
          simp [filterCands] at hsh
        obtain ⟨hx, hy⟩ := inBounds_of_getCell g p.1 p.2 l₀ hcell hne
        have hstep : stepNeighbor t (g, st) p =
            (setCell g p.1 p.2 (.superpos (filterCands (CONNECTION_RULES t) l₀)),
             p :: st) := by
          unfold stepNeighbor
          rw [hcell]
          dsimp only
          rw [if_pos hsh]
        rw [hstep]
        set g₁ := setCell g p.1 p.2 (.superpos (filterCands (CONNECTION_RULES t) l₀))
          with hg₁
        obtain ⟨ih1, ih2, ih3, ih4⟩ := ih g₁ (p :: st) hndt
        have hg₁p : getCell g₁ p.1 p.2 =
            .superpos (filterCands (CONNECTION_RULES t) l₀) :=
          getCell_setCell_self g p.1 p.2 _ hx hy
        have hg₁q : ∀ q : ℕ × ℕ, q ≠ p → getCell g₁ q.1 q.2 = getCell g q.1 q.2 := by
          intro q hq
          refine getCell_setCell_ne g p.1 p.2 q.1 q.2 _ ?_
          intro he
          exact hq (Prod.ext (congrArg Prod.fst he) (congrArg Prod.snd he))
        refine ⟨?_, ?_, ?_, ?_⟩
        · intro q hq
          have hqp : q ≠ p := fun he => hq (by simp [he])
          rw [ih1 q (fun hm => hq (by simp [hm])), hg₁q q hqp]
        · intro p' hp' l hl
          rcases List.mem_cons.mp hp' with he | hm
          · subst he
            rw [hcell] at hl
            cases hl
            rw [ih1 p' hpps, hg₁p]
          · have hp'p : p' ≠ p := fun he => hpps (he ▸ hm)
            exact ih2 p' hm l (by rw [hg₁q p' hp'p, hl])
        · intro p' hp' u' hu'
          rcases List.mem_cons.mp hp' with he | hm
          · subst he
            rw [hcell] at hu'
            cases hu'
          · have hp'p : p' ≠ p := fun he => hpps (he ▸ hm)
            exact ih3 p' hm u' (by rw [hg₁q p' hp'p, hu'])
        · intro q hq
          rcases ih4 q hq with hm | hs
          · rcases List.mem_cons.mp hm with he | hm'
            · subst he
              right
              rw [ih1 q hpps, hg₁p]
              rfl
            · exact Or.inl hm'
          · exact Or.inr hs
      · -- no change: the filter keeps the whole list
        have heq := filterCands_eq_of_not_lt hsh
        have hstep : stepNeighbor t (g, st) p = (g, st) := by
          unfold stepNeighbor
          rw [hcell]
          dsimp only
          rw [if_neg hsh]
        rw [hstep]
        obtain ⟨ih1, ih2, ih3, ih4⟩ := ih g st hndt
        refine ⟨fun q hq => ih1 q (fun hm => hq (by simp [hm])), ?_, ?_, ih4⟩
        · intro p' hp' l hl
          rcases List.mem_cons.mp hp' with he | hm
          · subst he
            rw [hcell] at hl
            cases hl
            rw [ih1 p' hpps, hcell, heq]
          · exact ih2 p' hm l hl
        · intro p' hp' u' hu'
          rcases List.mem_cons.mp hp' with he | hm
          · subst he
            rw [hcell] at hu'
            cases hu'
          · exact ih3 p' hm u' hu'

/-- Collapsing a cell to `t` and propagating performs exactly one
intersection round on the still-superposed in-bounds neighbors and
changes nothing else: the pushed neighbors are themselves superpositions,
so when they are popped the worklist skips them. -/
theorem doCollapse_char {n : ℕ} {g : Grid} {x y : ℕ} (t : TerrainType)
    (hd : Dims n g) (hx : x < n) (hy : y < n) :
    getCell (doCollapse n g x y t) x y = .collapsed t ∧
    (∀ p ∈ getNeighbors n x y, ∀ l, getCell g p.1 p.2 = .superpos l →
      getCell (doCollapse n g x y t) p.1 p.2 =
        .superpos (filterCands (CONNECTION_RULES t) l)) ∧
    (∀ p ∈ getNeighbors n x y, ∀ u, getCell g p.1 p.2 = .collapsed u →
      getCell (doCollapse n g x y t) p.1 p.2 = .collapsed u) ∧
    (∀ q : ℕ × ℕ, q ∉ getNeighbors n x y → q ≠ (x, y) →
      getCell (doCollapse n g x y t) q.1 q.2 = getCell g q.1 q.2) := by
  obtain ⟨hxb, hyb⟩ := dims_inBounds hd hx hy
  set g' := setCell g x y (.collapsed t) with hg'
  have hgx : getCell g' x y = .collapsed t := getCell_setCell_self g x y _ hxb hyb
  have hgq : ∀ q : ℕ × ℕ, q ≠ (x, y) → getCell g' q.1 q.2 = getCell g q.1 q.2 := by
    intro q hq
    refine getCell_setCell_ne g x y q.1 q.2 _ ?_
    intro he
    exact hq (Prod.ext (congrArg Prod.fst he) (congrArg Prod.snd he))
  have hne : ∀ p ∈ getNeighbors n x y, p ≠ (x, y) := by
    intro p hp he
    exact not_self_mem_getNeighbors n x y (he ▸ hp)
  obtain ⟨hc1, hc2, hc3, hc4⟩ :=
    foldl_stepNeighbor_char t (getNeighbors n x y) g' [] (getNeighbors_nodup n x y)
  set r := (getNeighbors n x y).foldl (stepNeighbor t) (g', []) with hr
  have hstep : doCollapse n g x y t = propagateAux n (4 * candCount g') r.1 r.2 := by
    show propagateAux n (4 * candCount g' + 1) g' [(x, y)] = _
    simp only [propagateAux, hgx]
  have hdone : propagateAux n (4 * candCount g') r.1 r.2 = r.1 := by
    refine propagateAux_superpos_stack n _ r.1 r.2 ?_
    intro c hc
    rcases hc4 c hc with hm | hs
    · cases hm
    · exact hs
  rw [hstep, hdone]
  refine ⟨?_, ?_, ?_, ?_⟩
  · rw [hc1 (x, y) (not_self_mem_getNeighbors n x y), hgx]
  · intro p hp l hl
    exact hc2 p hp l (by rw [hgq p (hne p hp), hl])
  · intro p hp u hu
    exact hc3 p hp u (by rw [hgq p (hne p hp), hu])
  · intro q hq hqxy
    rw [hc1 q hq, hgq q hqxy]

/-! ## The entropy scan -/

theorem entInv_step (g : Grid) (P : List (ℕ × ℕ)) (acc : Option (ℕ × List (ℕ × ℕ)))
    (p : ℕ × ℕ) (h : EntInv g P acc) : EntInv g (P ++ [p]) (entropyStep g acc p) := by
  by_cases hpc : candidateCell g p = true
  · -- the scanned cell is a non-empty superposition
    obtain ⟨l, hcell, hl⟩ : ∃ l, getCell g p.1 p.2 = .superpos l ∧ 0 < l.length := by
      unfold candidateCell at hpc
      cases hc : getCell g p.1 p.2 with
      | collapsed t => rw [hc] at hpc; cases hpc
      | superpos l => rw [hc] at hpc; exact ⟨l, rfl, of_decide_eq_true hpc⟩
    have hent : cellEntropy g p = l.length := by
      simp [cellEntropy, hcell, candWeight]
    cases acc with
    | none =>
      have hstep : entropyStep g none p = some (l.length, [p]) := by
        simp [entropyStep, hcell, hl]
      rw [hstep]
      refine ⟨by simp, ?_, ?_, ?_⟩
      · intro q hq
        rw [List.mem_singleton] at hq
        subst hq
        exact ⟨by simp, hpc, hent⟩
      · intro q hq hqc
        rcases List.mem_append.mp hq with hm | hm
        · exact absurd hqc (by simp [h q hm])
        · rw [List.mem_singleton] at hm
          subst hm
          omega
      · intro q hq hqc _
        rcases List.mem_append.mp hq with hm | hm
        · exact absurd hqc (by simp [h q hm])
        · simpa using hm
    | some mc =>
      obtain ⟨m, cs⟩ := mc
      obtain ⟨hne, h1, h2, h3⟩ := h
      rcases Nat.lt_trichotomy l.length m with hlt | heq | hgt
      · have hstep : entropyStep g (some (m, cs)) p = some (l.length, [p]) := by
          simp [entropyStep, hcell, hl, hlt]
        rw [hstep]
        refine ⟨by simp, ?_, ?_, ?_⟩
        · intro q hq
          rw [List.mem_singleton] at hq
          subst hq
          exact ⟨by simp, hpc, hent⟩
        · intro q hq hqc
          rcases List.mem_append.mp hq with hm | hm
          · have := h2 q hm hqc
            omega
          · rw [List.mem_singleton] at hm
            subst hm
            omega
        · intro q hq hqc hqe
          rcases List.mem_append.mp hq with hm | hm
          · have := h2 q hm hqc
            omega
          · simpa using hm
      · have hstep : entropyStep g (some (m, cs)) p = some (m, cs ++ [p]) := by
          simp [entropyStep, hcell, hl, heq]
          omega
        rw [hstep]
        refine ⟨by simp, ?_, ?_, ?_⟩
        · intro q hq
          rcases List.mem_append.mp hq with hm | hm
          · obtain ⟨hq1, hq2, hq3⟩ := h1 q hm
            exact ⟨List.mem_append.mpr (Or.inl hq1), hq2, hq3⟩
          · rw [List.mem_singleton] at hm
            subst hm
            exact ⟨by simp, hpc, by omega⟩
        · intro q hq hqc
          rcases List.mem_append.mp hq with hm | hm
          · exact h2 q hm hqc
          · rw [List.mem_singleton] at hm
            subst hm
            omega
        · intro q hq hqc hqe
          rcases List.mem_append.mp hq with hm | hm
          · exact List.mem_append.mpr (Or.inl (h3 q hm hqc hqe))
          · rw [List.mem_singleton] at hm
            subst hm
            simp
      · have hstep : entropyStep g (some (m, cs)) p = some (m, cs) := by
          unfold entropyStep
          rw [hcell]
          dsimp only
          rw [if_pos hl, if_neg (show ¬l.length < m by omega),
            if_neg (show ¬l.length = m by omega)]
        rw [hstep]
        refine ⟨hne, ?_, ?_, ?_⟩
        · intro q hq
          obtain ⟨hq1, hq2, hq3⟩ := h1 q hq
          exact ⟨List.mem_append.mpr (Or.inl hq1), hq2, hq3⟩
        · intro q hq hqc
          rcases List.mem_append.mp hq with hm | hm
          · exact h2 q hm hqc
          · rw [List.mem_singleton] at hm
            subst hm
            omega
        · intro q hq hqc hqe
          rcases List.mem_append.mp hq with hm | hm
          · exact h3 q hm hqc hqe
          · rw [List.mem_singleton] at hm
            subst hm
            omega
  · -- the scanned cell is skipped, the accumulator is unchanged
    have hpc' : candidateCell g p = false := by
      cases hb : candidateCell g p
      · rfl
      · exact absurd hb hpc
    have hstep : entropyStep g acc p = acc := by
      unfold candidateCell at hpc'
      unfold entropyStep
      cases hc : getCell g p.1 p.2 with
      | collapsed t => rfl
      | superpos l =>
        rw [hc] at hpc'
        have hnl : ¬ 0 < l.length := by simpa using hpc'
        dsimp only
        rw [if_neg hnl]
    rw [hstep]
    cases acc with
    | none =>
      intro q hq
      rcases List.mem_append.mp hq with hm | hm
      · exact h q hm
      · rw [List.mem_singleton] at hm
        subst hm
        exact hpc'
    | some mc =>
      obtain ⟨m, cs⟩ := mc
      obtain ⟨hne, h1, h2, h3⟩ := h
      refine ⟨hne, ?_, ?_, ?_⟩
      · intro q hq
        obtain ⟨hq1, hq2, hq3⟩ := h1 q hq
        exact ⟨List.mem_append.mpr (Or.inl hq1), hq2, hq3⟩
      · intro q hq hqc
        rcases List.mem_append.mp hq with hm | hm
        · exact h2 q hm hqc
        · rw [List.mem_singleton] at hm
          subst hm
          rw [hpc'] at hqc
          cases hqc
      · intro q hq hqc hqe
        rcases List.mem_append.mp hq with hm | hm
        · exact h3 q hm hqc hqe
        · rw [List.mem_singleton] at hm
          subst hm
          rw [hpc'] at hqc
          cases hqc

theorem entInv_foldl (g : Grid) (ps : List (ℕ × ℕ)) :
    ∀ (P : List (ℕ × ℕ)) (acc : Option (ℕ × List (ℕ × ℕ))), EntInv g P acc →
      EntInv g (P ++ ps) (ps.foldl (entropyStep g) acc) := by
  induction ps with
  | nil => intro P acc h; simpa using h
  | cons p ps ih =>
    intro P acc h
    rw [List.foldl_cons]
    have := ih (P ++ [p]) (entropyStep g acc p) (entInv_step g P acc p h)
    simpa using this

theorem entInv_coords (n : ℕ) (g : Grid) :
    EntInv g (coords n) ((coords n).foldl (entropyStep g) none) := by
  have h0 : EntInv g [] none := by
    intro q hq
    cases hq
  simpa using entInv_foldl g (coords n) [] none h0

/-- Full specification of `min_cells`: it is empty iff no non-empty
superposition cell remains, all its members are candidates of globally
minimal entropy, and it contains every such cell. -/
theorem minEntropyCells_spec (n : ℕ) (g : Grid) :
    (minEntropyCells n g = [] ↔ ∀ p ∈ coords n, candidateCell g p = false) ∧
    (∀ c ∈ minEntropyCells n g, c ∈ coords n ∧ candidateCell g c = true ∧
      ∀ c' ∈ coords n, candidateCell g c' = true →
        cellEntropy g c ≤ cellEntropy g c') ∧
    (∀ c ∈ coords n, candidateCell g c = true →
      (∀ c' ∈ coords n, candidateCell g c' = true →
        cellEntropy g c ≤ cellEntropy g c') →
      c ∈ minEntropyCells n g) := by
  have hinv := entInv_coords n g
  unfold minEntropyCells
  cases hacc : (coords n).foldl (entropyStep g) none with
  | none =>
    rw [hacc] at hinv
    refine ⟨⟨fun _ => hinv, fun _ => rfl⟩, by simp, ?_⟩
    intro c hc hcand _
    exact absurd hcand (by simp [hinv c hc])
  | some mc =>
    obtain ⟨m, cs⟩ := mc
    rw [hacc] at hinv
    obtain ⟨hne, h1, h2, h3⟩ := hinv
    have hm : ∃ c₀ ∈ cs, cellEntropy g c₀ = m := by
      cases cs with
      | nil => exact absurd rfl hne
      | cons c₀ cs' => exact ⟨c₀, by simp, (h1 c₀ (by simp)).2.2⟩
    refine ⟨?_, ?_, ?_⟩
    · constructor
      · intro hcs
        subst hcs
        exact absurd rfl hne
      · intro hall
        obtain ⟨c₀, hc₀, _⟩ := hm
        obtain ⟨hmem, hcand, _⟩ := h1 c₀ hc₀
        exact absurd hcand (by simp [hall c₀ hmem])
    · intro c hc
      obtain ⟨hmem, hcand, hent⟩ := h1 c hc
      refine ⟨hmem, hcand, ?_⟩
      intro c' hc' hcand'
      have := h2 c' hc' hcand'
      omega
    · intro c hc hcand hmin
      obtain ⟨c₀, hc₀, hent₀⟩ := hm
      obtain ⟨hmem₀, hcand₀, _⟩ := h1 c₀ hc₀
      have hle : cellEntropy g c ≤ m := hent₀ ▸ hmin c₀ hmem₀ hcand₀
      have hge : m ≤ cellEntropy g c := h2 c hc hcand
      exact h3 c hc hcand (by omega)

/-! ## find_min_entropy_cell -/

theorem mem_coords_iff {n : ℕ} {p : ℕ × ℕ} : p ∈ coords n ↔ p.1 < n ∧ p.2 < n := by
  constructor
  · intro h
    obtain ⟨x, hx, hp⟩ := List.mem_flatMap.mp h
    obtain ⟨y, hy, he⟩ := List.mem_map.mp hp
    subst he
    exact ⟨List.mem_range.mp hx, List.mem_range.mp hy⟩
  · rintro ⟨h1, h2⟩
    refine List.mem_flatMap.mpr ⟨p.1, List.mem_range.mpr h1, ?_⟩
    exact List.mem_map.mpr ⟨p.2, List.mem_range.mpr h2, rfl⟩

theorem findMin_none_iff (n : ℕ) (g : Grid) (o : List ℕ) :
    findMinEntropyCell n g o = none ↔ ∀ p ∈ coords n, candidateCell g p = false := by
  unfold findMinEntropyCell
  cases h : minEntropyCells n g with
  | nil =>
    constructor
    · intro _
      exact (minEntropyCells_spec n g).1.mp h
    · intro _
      rfl
  | cons c0 cs =>
    constructor
    · intro hc
      cases hc
    · intro hall
      obtain ⟨hmem, hcand, _⟩ :=
        (minEntropyCells_spec n g).2.1 c0 (by rw [h]; simp)
      exact absurd hcand (by simp [hall c0 hmem])

theorem findMin_mem {n : ℕ} {g : Grid} {o : List ℕ} {c : ℕ × ℕ}
    (h : findMinEntropyCell n g o = some c) : c ∈ minEntropyCells n g := by
  unfold findMinEntropyCell at h
  cases hm : minEntropyCells n g with
  | nil => rw [hm] at h; cases h
  | cons c0 cs =>
    rw [hm] at h
    injection h with h
    subst h
    have hlt : o.headD 0 % (c0 :: cs).length < (c0 :: cs).length :=
      Nat.mod_lt _ (by simp)
    rw [List.getD_eq_getElem _ _ hlt]
    exact List.getElem_mem hlt

theorem findMin_exists_oracle {n : ℕ} {g : Grid} {c : ℕ × ℕ}
    (h : c ∈ minEntropyCells n g) : ∃ o, findMinEntropyCell n g o = some c := by
  cases hm : minEntropyCells n g with
  | nil => rw [hm] at h; cases h
  | cons c0 cs =>
    rw [hm] at h
    obtain ⟨i, hi, he⟩ := List.mem_iff_getElem.mp h
    refine ⟨[i], ?_⟩
    unfold findMinEntropyCell
    rw [hm]
    show some ((c0 :: cs).getD (([i] : List ℕ).headD 0 % (c0 :: cs).length) c0) = some c
    rw [show ([i] : List ℕ).headD 0 = i from rfl, Nat.mod_eq_of_lt hi,
      List.getD_eq_getElem _ _ hi, he]

/-! ## The main loop -/

theorem superposCount_doCollapse {n : ℕ} {g : Grid} {x y : ℕ}
    (hd : Dims n g) (hx : x < n) (hy : y < n) {l : List TerrainType}
    (h : getCell g x y = .superpos l) (t : TerrainType) :
    superposCount (doCollapse n g x y t) + 1 = superposCount g := by
  obtain ⟨hxb, hyb⟩ := dims_inBounds hd hx hy
  have hsum := gridSum_setCell superposWeight g x y (.collapsed t) hxb hyb
  rw [h] at hsum
  simp [superposWeight, isSuperpos] at hsum
  unfold doCollapse propagateConstraints
  rw [superposCount_eq_gridSum,
    gridSum_propagateAux superposWeight (fun _ _ => rfl),
    ← superposCount_eq_gridSum]
  rw [superposCount_eq_gridSum g, ← hsum]
  rfl

theorem dims_loopWFC {n : ℕ} : ∀ (fuel : ℕ) (g : Grid) (o : List ℕ),
    Dims n g → Dims n (loopWFC n fuel g o) := by
  intro fuel
  induction fuel with
  | zero => intro g o h; exact h
  | succ fuel ih =>
    intro g o h
    cases hmc : minEntropyCells n g with
    | nil => simp only [loopWFC, hmc]; exact h
    | cons c0 cs =>
      simp only [loopWFC, hmc]
      split
      · exact h
      · exact h
      · exact ih _ _ (dims_doCollapse h _ _ _)

theorem no_superpos_of_count_zero {g : Grid} (h : superposCount g = 0)
    {x y : ℕ} (hx : x < g.length) (hy : y < (g.getD x []).length) :
    isSuperpos (getCell g x y) = false := by
  unfold superposCount at h
  have hrow : ((g.getD x []).map superposWeight).sum = 0 := by
    refine (List.sum_eq_zero_iff.mp h) _ ?_
    rw [List.getD_eq_getElem g [] hx]
    exact List.mem_map_of_mem _ (List.getElem_mem hx)
  have hcell : superposWeight (getCell g x y) = 0 := by
    refine (List.sum_eq_zero_iff.mp hrow) _ ?_
    unfold getCell
    rw [List.getD_eq_getElem _ _ hy]
    exact List.mem_map_of_mem _ (List.getElem_mem hy)
  unfold superposWeight at hcell
  cases hb : isSuperpos (getCell g x y)
  · rfl
  · rw [hb] at hcell
    simp at hcell

theorem loopWFC_no_candidates (n : ℕ) : ∀ (fuel : ℕ) (g : Grid) (o : List ℕ),
    Dims n g → superposCount g ≤ fuel →
    ∀ p ∈ coords n, candidateCell (loopWFC n fuel g o) p = false := by
  intro fuel
  induction fuel with
  | zero =>
    intro g o hd hf p hp
    have h0 : superposCount g = 0 := by omega
    obtain ⟨hp1, hp2⟩ := mem_coords_iff.mp hp
    obtain ⟨hxb, hyb⟩ := dims_inBounds hd hp1 hp2
    have hns := no_superpos_of_count_zero h0 hxb hyb
    show candidateCell g p = false
    unfold candidateCell
    cases hcell : getCell g p.1 p.2 with
    | collapsed t => rfl
    | superpos l =>
      rw [hcell] at hns
      simp [isSuperpos] at hns
  | succ fuel ih =>
    intro g o hd hf p hp
    cases hmc : minEntropyCells n g with
    | nil =>
      simp only [loopWFC, hmc]
      exact ((minEntropyCells_spec n g).1.mp hmc) p hp
    | cons c0 cs =>
      have hlt : o.headD 0 % (c0 :: cs).length < (c0 :: cs).length :=
        Nat.mod_lt _ (by simp)
      have hcmem : (c0 :: cs).getD (o.headD 0 % (c0 :: cs).length) c0 ∈
          minEntropyCells n g := by
        rw [hmc, List.getD_eq_getElem _ _ hlt]
        exact List.getElem_mem hlt
      obtain ⟨hcoord, hcand, _⟩ := (minEntropyCells_spec n g).2.1 _ hcmem
      obtain ⟨hc1, hc2⟩ := mem_coords_iff.mp hcoord
      simp only [loopWFC, hmc]
      split
      · rename_i t hcell
        unfold candidateCell at hcand
        rw [hcell] at hcand
        simp at hcand
      · rename_i hcell
        unfold candidateCell at hcand
        rw [hcell] at hcand
        simp at hcand
      · rename_i a as hcell
        refine ih _ o.tail.tail (dims_doCollapse hd _ _ _) ?_ p hp
        have := superposCount_doCollapse hd hc1 hc2 hcell
          ((a :: as).getD (o.tail.headD 0 % (a :: as).length) a)
        omega

theorem runGrid_no_candidates (n : ℕ) (o : List ℕ) :
    ∀ p ∈ coords n, candidateCell (runGrid n o) p = false := by
  unfold runGrid
  exact loopWFC_no_candidates n _ _ o
    (dims_doCollapse (dims_initGrid n) _ _ _) (le_refl _)

theorem dims_runGrid (n : ℕ) (o : List ℕ) : Dims n (runGrid n o) := by
  unfold runGrid
  exact dims_loopWFC _ _ o (dims_doCollapse (dims_initGrid n) _ _ _)

/-! ## Counting collapsed cells -/

theorem sum_map_add_distrib {α : Type*} (f f' : α → ℕ) (l : List α) :
    (l.map f).sum + (l.map f').sum = (l.map fun x => f x + f' x).sum := by
  induction l with
  | nil => rfl
  | cons a as ih =>
    simp only [List.map_cons, List.sum_cons]
    omega

theorem row_weight_total (row : List Cell) :
    (row.map superposWeight).sum + (row.map collapsedWeight).sum = row.length := by
  induction row with
  | nil => rfl
  | cons c cs ih =>
    simp only [List.map_cons, List.sum_cons, List.length_cons]
    have : superposWeight c + collapsedWeight c = 1 := by
      cases c <;> simp [superposWeight, collapsedWeight, isSuperpos]
    omega

theorem counts_total {n : ℕ} {g : Grid} (hd : Dims n g) :
    superposCount g + collapsedCount g = n * n := by
  obtain ⟨h1, h2⟩ := hd
  unfold superposCount collapsedCount
  rw [sum_map_add_distrib (fun row => (row.map superposWeight).sum)
    (fun row => (row.map collapsedWeight).sum) g]
  have hrow : ∀ row ∈ g, (row.map superposWeight).sum + (row.map collapsedWeight).sum
      = n := by
    intro row hr
    rw [row_weight_total]
    exact h2 row hr
  calc (g.map fun row => (row.map superposWeight).sum +
          (row.map collapsedWeight).sum).sum
      = (g.map fun _ => n).sum := by
        exact congrArg List.sum (List.map_congr_left hrow)
    _ = n * n := by
        rw [List.map_const', List.sum_replicate, h1, smul_eq_mul]

theorem superposCount_zero_of_pointwise {n : ℕ} {g : Grid} (hd : Dims n g)
    (h : ∀ p ∈ coords n, isSuperpos (getCell g p.1 p.2) = false) :
    superposCount g = 0 := by
  unfold superposCount
  apply List.sum_eq_zero
  intro v hv
  obtain ⟨row, hrow, he⟩ := List.mem_map.mp hv
  subst he
  apply List.sum_eq_zero
  intro w hw
  obtain ⟨c, hc, he2⟩ := List.mem_map.mp hw
  subst he2
  obtain ⟨x, hx, hex⟩ := List.mem_iff_getElem.mp hrow
  obtain ⟨y, hy, hey⟩ := List.mem_iff_getElem.mp hc
  have hcell : getCell g x y = c := by
    unfold getCell
    rw [List.getD_eq_getElem g [] hx, hex, List.getD_eq_getElem row _ hy, hey]
  have hxn : x < n := hd.1 ▸ hx
  have hyn : y < n := (hd.2 row hrow) ▸ hy
  have hns := h (x, y) (mem_coords_iff.mpr ⟨hxn, hyn⟩)
  rw [hcell] at hns
  unfold superposWeight
  rw [hns]
  rfl

/-! ## Placement pass lemmas -/

theorem mem_coords_of_mem_getNeighbors {n x y : ℕ} {q : ℕ × ℕ}
    (hx : x < n) (hy : y < n) (hq : q ∈ getNeighbors n x y) : q ∈ coords n := by
  rw [mem_coords_iff]
  rcases mem_getNeighbors_iff.mp hq with ⟨h, he⟩ | ⟨h, he⟩ | ⟨h, he⟩ | ⟨h, he⟩ <;>
    subst he <;> constructor <;> simp <;> omega

theorem getNeighbors_ne_nil {n x y : ℕ} (hn : 2 ≤ n) (hx : x < n) :
    getNeighbors n x y ≠ [] := by
  intro hcontra
  unfold getNeighbors at hcontra
  by_cases hx0 : 0 < x
  · rw [if_pos hx0] at hcontra
    simp at hcontra
  · rw [if_neg hx0, if_pos (by omega)] at hcontra
    simp at hcontra

theorem heightDiffs_some (g : Grid) (x y : ℕ) (ns : List (ℕ × ℕ))
    (hself : ∃ t, getCell g x y = .collapsed t)
    (hns : ∀ p ∈ ns, ∃ t, getCell g p.1 p.2 = .collapsed t) :
    ∃ ds, heightDiffs g x y ns = some ds := by
  induction ns with
  | nil => exact ⟨[], rfl⟩
  | cons p rest ih =>
    obtain ⟨t0, h0⟩ := hself
    obtain ⟨tn, hn⟩ := hns p (by simp)
    obtain ⟨ds, hds⟩ := ih fun q hq => hns q (by simp [hq])
    refine ⟨|HEIGHT_VALUES t0 - HEIGHT_VALUES tn| :: ds, ?_⟩
    unfold heightDiffs
    rw [h0, hn, hds]
    rfl

theorem heightDiffs_none_of_superpos {g : Grid} {x y : ℕ} {l : List TerrainType}
    (hcell : getCell g x y = .superpos l) {ns : List (ℕ × ℕ)} (hne : ns ≠ []) :
    heightDiffs g x y ns = none := by
  cases ns with
  | nil => exact absurd rfl hne
  | cons p rest =>
    unfold heightDiffs
    rw [hcell]
    rfl

theorem cellSlope_some {n : ℕ} {g : Grid} {x y : ℕ}
    (hall : ∀ p ∈ coords n, ∃ t, getCell g p.1 p.2 = .collapsed t)
    (hx : x < n) (hy : y < n) : ∃ s, cellSlope n g x y = some s := by
  obtain ⟨ds, hds⟩ := heightDiffs_some g x y (getNeighbors n x y)
    (hall (x, y) (mem_coords_iff.mpr ⟨hx, hy⟩))
    (fun p hp => hall p (mem_coords_of_mem_getNeighbors hx hy hp))
  exact ⟨ds.foldl max 0, by unfold cellSlope; rw [hds]; rfl⟩

theorem cellSlope_none {n : ℕ} {g : Grid} {x y : ℕ} {l : List TerrainType}
    (hn : 2 ≤ n) (hx : x < n) (hcell : getCell g x y = .superpos l) :
    cellSlope n g x y = none := by
  unfold cellSlope
  rw [heightDiffs_none_of_superpos hcell (getNeighbors_ne_nil hn hx)]
  rfl

theorem placeLoop_some (n : ℕ) (g : Grid) (cellSize : ℚ)
    (hall : ∀ p ∈ coords n, ∃ t, getCell g p.1 p.2 = .collapsed t) :
    ∀ (cs : List (ℕ × ℕ)), (∀ p ∈ cs, p ∈ coords n) →
      ∀ o, ∃ r, placeLoop n g cellSize cs o = some r := by
  intro cs
  induction cs with
  | nil => intro _ o; exact ⟨([], []), rfl⟩
  | cons p rest ih =>
    intro hmem o
    obtain ⟨hp1, hp2⟩ := mem_coords_iff.mp (hmem p (by simp))
    obtain ⟨s, hs⟩ := cellSlope_some hall hp1 hp2
    obtain ⟨r, hr⟩ := ih (fun q hq => hmem q (by simp [hq]))
      (placeCellObjs cellSize (getCell g p.1 p.2) s p.1 p.2 OBJECT_TYPES o).2.2
    obtain ⟨recs, reals⟩ := r
    refine ⟨((placeCellObjs cellSize (getCell g p.1 p.2) s p.1 p.2 OBJECT_TYPES o).1
        ++ recs,
      (placeCellObjs cellSize (getCell g p.1 p.2) s p.1 p.2 OBJECT_TYPES o).2.1
        ++ reals), ?_⟩
    simp only [placeLoop, hs, hr]

theorem placeLoop_none (n : ℕ) (g : Grid) (cellSize : ℚ) (hn : 2 ≤ n)
    {q : ℕ × ℕ} {l : List TerrainType} (hq : q ∈ coords n)
    (hcell : getCell g q.1 q.2 = .superpos l) :
    ∀ (cs : List (ℕ × ℕ)), q ∈ cs →
      ∀ o, placeLoop n g cellSize cs o = none := by
  intro cs
  induction cs with
  | nil => intro h; cases h
  | cons p rest ih =>
    intro hmem o
    rcases List.mem_cons.mp hmem with he | hm
    · subst he
      have hs := cellSlope_none hn (mem_coords_iff.mp hq).1 hcell
      unfold placeLoop
      rw [hs]
    · unfold placeLoop
      cases hs : cellSlope n g p.1 p.2 with
      | none => rfl
      | some s =>
        dsimp only
        rw [ih hm]

/-- `place_environmental_objects` succeeds on a fully collapsed grid. -/
theorem placeEnv_some {n : ℕ} {g : Grid} (cellSize : ℚ)
    (hall : ∀ p ∈ coords n, ∃ t, getCell g p.1 p.2 = .collapsed t) (o : List ℚ) :
    ∃ r, placeEnvironmentalObjects n g cellSize o = some r :=
  placeLoop_some n g cellSize hall (coords n) (fun _ hp => hp) o

/-- `place_environmental_objects` raises (models to `none`) as soon as the
grid retains a superposition cell. -/
theorem placeEnv_none {n : ℕ} {g : Grid} (cellSize : ℚ) (hn : 2 ≤ n)
    {q : ℕ × ℕ} {l : List TerrainType} (hq : q ∈ coords n)
    (hcell : getCell g q.1 q.2 = .superpos l) (o : List ℚ) :
    placeEnvironmentalObjects n g cellSize o = none :=
  placeLoop_none n g cellSize hn hq hcell (coords n) hq o

/-- Candidate sets only shrink across a full `collapse_cell` with an
explicit type: set the cell, then propagate. -/
theorem superpos_doCollapse {n : ℕ} {g : Grid} {x y : ℕ} {t : TerrainType}
    {x' y' : ℕ} {l l' : List TerrainType}
    (hl : getCell g x' y' = .superpos l)
    (hl' : getCell (doCollapse n g x y t) x' y' = .superpos l') :
    l' ⊆ l ∧ l'.length ≤ l.length := by
  have hcases : getCell (setCell g x y (.collapsed t)) x' y' = getCell g x' y' ∨
      getCell (setCell g x y (.collapsed t)) x' y' = .collapsed t := by
    by_cases hq : (x', y') = (x, y)
    · have h1 : x' = x := congrArg Prod.fst hq
      have h2 : y' = y := congrArg Prod.snd hq
      subst h1
      subst h2
      by_cases hb : x' < g.length ∧ y' < (g.getD x' []).length
      · exact Or.inr (getCell_setCell_self g x' y' _ hb.1 hb.2)
      · rw [setCell_oob g x' y' _ hb]
        exact Or.inl rfl
    · exact Or.inl (getCell_setCell_ne g x y x' y' _ hq)
  unfold doCollapse propagateConstraints at hl'
  rcases hcases with hsame | hcoll
  · have hset : getCell (setCell g x y (.collapsed t)) x' y' = .superpos l := by
      rw [hsame, hl]
    obtain ⟨l'', h1, h2⟩ := superpos_propagateAux hset
    rw [h1] at hl'
    injection hl' with he
    subst he
    exact ⟨h2.subset, h2.length_le⟩
  · have hfin := @collapsed_propagateAux n
      (4 * candCount (setCell g x y (.collapsed t)) + 1)
      (setCell g x y (.collapsed t)) [(x, y)] x' y' t hcoll
    rw [hfin] at hl'
    cases hl'

/-! ## Claims -/

/-- C1: after `collapse_cell(x, y, T)` (which runs
`propagate_constraints`), every in-bounds neighbor of the collapsed cell
that is still in superposition ends with a candidate set equal to its
prior candidate set intersected with `T`'s adjacency set; in particular,
on a fresh 3×3 grid seeded at the center with `mountain_peak`, all 4
direct neighbors are reduced to exactly `{mountain_peak, slope}`. -/
theorem wfc_C1 (n : ℕ) (g : Grid) (x y : ℕ) (T : TerrainType) (o : List ℕ)
    (hd : Dims n g) (hx : x < n) (hy : y < n) :
    (∀ p ∈ getNeighbors n x y, ∀ l, getCell g p.1 p.2 = .superpos l →
      getCell (collapseCell n g x y (some T) o).2.1 p.1 p.2 =
        .superpos (filterCands (CONNECTION_RULES T) l)) ∧
    (∀ p ∈ getNeighbors 3 1 1,
      getCell (collapseCell 3 (initGrid 3) 1 1 (some mountain_peak) o).2.1 p.1 p.2 =
        .superpos [mountain_peak, slope]) := by
  constructor
  · intro p hp l hl
    exact (doCollapse_char T hd hx hy).2.1 p hp l hl
  · show ∀ p ∈ getNeighbors 3 1 1,
        getCell (doCollapse 3 (initGrid 3) 1 1 mountain_peak) p.1 p.2 =
          .superpos [mountain_peak, slope]
    decide

/-- C1 witness: concrete instance on the 3×3 grid. -/
theorem wfc_C1_witness :
    getCell (collapseCell 3 (initGrid 3) 1 1 (some mountain_peak) []).2.1 0 1 =
      .superpos [mountain_peak, slope] :=
  (wfc_C1 3 (initGrid 3) 1 1 mountain_peak [] (dims_initGrid 3) (by decide)
      (by decide)).1
    (0, 1) (by decide) TERRAIN_TYPES (by decide)

/-- C2 counterexample: on a 5×5 grid there is a sequence of random draws
under which propagation empties the candidate set of cell (3,0); the run
then terminates with only 24 of the 25 cells collapsed and cell (3,0)
still in (empty) superposition, so the loop does not always perform
exactly W×H collapses nor leave every cell collapsed. -/
theorem wfc_C2_counterexample :
    getCell (runGrid 5 [0, 1, 0, 1, 0, 1, 0, 1, 3, 1, 8, 3, 8, 3, 0, 0, 1, 2]) 3 0 =
      .superpos [] ∧
    collapsedCount (runGrid 5 [0, 1, 0, 1, 0, 1, 0, 1, 3, 1, 8, 3, 8, 3, 0, 0, 1, 2])
      = 24 := by
  decide

/-- C2 amended: the main loop always terminates having collapsed at most
W×H cells; if no contradiction (empty candidate set) is present at the
end of the run, every cell is collapsed and the number of collapsed cells
is exactly W×H. -/
theorem wfc_C2_amended (n : ℕ) (o : List ℕ) :
    collapsedCount (runGrid n o) ≤ n * n ∧
    ((∀ p ∈ coords n, getCell (runGrid n o) p.1 p.2 ≠ .superpos []) →
      (∀ p ∈ coords n, ∃ t, getCell (runGrid n o) p.1 p.2 = .collapsed t) ∧
      collapsedCount (runGrid n o) = n * n) := by
  have hd := dims_runGrid n o
  have hnc := runGrid_no_candidates n o
  have htot := counts_total hd
  constructor
  · omega
  · intro hne
    have hall : ∀ p ∈ coords n, ∃ t, getCell (runGrid n o) p.1 p.2 = .collapsed t := by
      intro p hp
      cases hcell : getCell (runGrid n o) p.1 p.2 with
      | collapsed t => exact ⟨t, rfl⟩
      | superpos l =>
        cases l with
        | nil => exact absurd hcell (hne p hp)
        | cons a as =>
          have hc := hnc p hp
          unfold candidateCell at hc
          rw [hcell] at hc
          simp at hc
    refine ⟨hall, ?_⟩
    have hz : superposCount (runGrid n o) = 0 := by
      apply superposCount_zero_of_pointwise hd
      intro p hp
      obtain ⟨t, ht⟩ := hall p hp
      rw [ht]
      rfl
    omega

/-- C2 witness: a 3×3 run without contradiction collapses all 9 cells. -/
theorem wfc_C2_amended_witness : collapsedCount (runGrid 3 []) = 9 :=
  ((wfc_C2_amended 3 []).2 (by decide)).2

/-- C3: at a grid state in which collapsing `(0,0)` empties the candidate
set of `(0,1)`, the solver does not fail: the collapse reports success,
`find_min_entropy_cell` filters on `len(cell) > 0` and therefore returns
`None` although an (empty) superposition cell remains, and the main loop
terminates leaving the cell in the undefined empty state — the code
silently skips the contradicted cell instead of surfacing a hard
failure. -/
theorem wfc_C3_skip :
    (collapseCell 3 contraGrid 0 0 none [0]).1 = true ∧
    getCell (collapseCell 3 contraGrid 0 0 none [0]).2.1 0 1 = .superpos [] ∧
    findMinEntropyCell 3 (collapseCell 3 contraGrid 0 0 none [0]).2.1 [] = none ∧
    loopWFC 3 (superposCount (collapseCell 3 contraGrid 0 0 none [0]).2.1)
      (collapseCell 3 contraGrid 0 0 none [0]).2.1 [] =
      (collapseCell 3 contraGrid 0 0 none [0]).2.1 := by
  decide

/-- C4 counterexample: `collapse_cell` with an explicit terrain type
performs no check at all, so it mutates an already collapsed cell,
changing its terrain type and reporting success. -/
theorem wfc_C4_counterexample :
    getCell c4Grid 1 1 = .collapsed slope ∧
    (collapseCell 3 c4Grid 1 1 (some mountain_peak) []).1 = true ∧
    getCell (collapseCell 3 c4Grid 1 1 (some mountain_peak) []).2.1 1 1 =
      .collapsed mountain_peak := by
  decide

/-- C4 amended: `propagate_constraints` never mutates a collapsed cell,
and `collapse_cell` without an explicit terrain type is a failing no-op on
a collapsed cell (the placement pass reads the grid only); but
`collapse_cell` with an explicit type overwrites unconditionally. -/
theorem wfc_C4_amended :
    (∀ (n fuel : ℕ) (g : Grid) (st : List (ℕ × ℕ)) (x y : ℕ) (t : TerrainType),
      getCell g x y = .collapsed t →
      getCell (propagateAux n fuel g st) x y = .collapsed t) ∧
    (∀ (n : ℕ) (g : Grid) (x y : ℕ) (o : List ℕ) (t : TerrainType),
      getCell g x y = .collapsed t →
      collapseCell n g x y none o = (false, g, o)) :=
  ⟨fun _ _ _ _ _ _ _ h => collapsed_propagateAux h,
   fun n g x y o t h => collapseCell_none_noop n g x y o (Or.inl ⟨t, h⟩)⟩

/-- C4 witness: concrete instances of both amended conjuncts. -/
theorem wfc_C4_witness :
    getCell (propagateAux 3 5 c4Grid [(1, 1)]) 1 1 = .collapsed slope ∧
    collapseCell 3 c4Grid 1 1 none [] = (false, c4Grid, []) :=
  ⟨wfc_C4_amended.1 3 5 c4Grid [(1, 1)] 1 1 slope (by decide),
   wfc_C4_amended.2 3 c4Grid 1 1 [] slope (by decide)⟩

/-- C5: candidate sets only shrink: whenever a cell is in superposition
before and after `propagate_constraints` or a `collapse_cell` call, the
new candidate set is a subset of the old one and its size is
non-increasing. -/
theorem wfc_C5 :
    (∀ (n fuel : ℕ) (g : Grid) (st : List (ℕ × ℕ)) (x y : ℕ)
        (l l' : List TerrainType),
      getCell g x y = .superpos l →
      getCell (propagateAux n fuel g st) x y = .superpos l' →
      l' ⊆ l ∧ l'.length ≤ l.length) ∧
    (∀ (n : ℕ) (g : Grid) (x y : ℕ) (ty : Option TerrainType) (o : List ℕ)
        (x' y' : ℕ) (l l' : List TerrainType),
      getCell g x' y' = .superpos l →
      getCell (collapseCell n g x y ty o).2.1 x' y' = .superpos l' →
      l' ⊆ l ∧ l'.length ≤ l.length) := by
  constructor
  · intro n fuel g st x y l l' hl hl'
    obtain ⟨l'', h1, h2⟩ := @superpos_propagateAux n fuel g st x y l hl
    rw [h1] at hl'
    injection hl' with he
    subst he
    exact ⟨h2.subset, h2.length_le⟩
  · intro n g x y ty o x' y' l l' hl hl'
    match ty with
    | some t =>
      exact superpos_doCollapse hl hl'
    | none =>
      cases hc : getCell g x y with
      | collapsed u =>
        rw [collapseCell_none_noop n g x y o (Or.inl ⟨u, hc⟩)] at hl'
        dsimp only at hl'
        rw [hl] at hl'
        injection hl' with he
        subst he
        exact ⟨fun a ha => ha, le_refl _⟩
      | superpos lc =>
        cases lc with
        | nil =>
          rw [collapseCell_none_noop n g x y o (Or.inr hc)] at hl'
          dsimp only at hl'
          rw [hl] at hl'
          injection hl' with he
          subst he
          exact ⟨fun a ha => ha, le_refl _⟩
        | cons a as =>
          have hstep : (collapseCell n g x y none o).2.1 =
              doCollapse n g x y
                ((a :: as).getD (o.headD 0 % (a :: as).length) a) := by
            unfold collapseCell
            rw [hc]
          rw [hstep] at hl'
          exact superpos_doCollapse hl hl'

/-- C5 witness: concrete shrink instance. -/
theorem wfc_C5_witness :
    [mountain_peak, slope] ⊆ TERRAIN_TYPES ∧
    ([mountain_peak, slope] : List TerrainType).length ≤ TERRAIN_TYPES.length :=
  wfc_C5.1 3 5 (setCell (initGrid 3) 1 1 (.collapsed mountain_peak)) [(1, 1)] 0 1
    TERRAIN_TYPES [mountain_peak, slope] (by decide) (by decide)


/-- C6 counterexample: `collapse_cell` with an explicit terrain type never
fails: on a cell with an empty candidate set it still reports success and
overwrites the cell. -/
theorem wfc_C6_counterexample :
    getCell c6Grid 0 0 = .superpos [] ∧
    (collapseCell 3 c6Grid 0 0 (some shoreline) []).1 = true ∧
    getCell (collapseCell 3 c6Grid 0 0 (some shoreline) []).2.1 0 0 =
      .collapsed shoreline := by
  decide

/-- C6 amended: when no explicit terrain type is supplied, `collapse_cell`
returns `False` and leaves all state unchanged whenever the cell is
already collapsed or its superposition set is empty. -/
theorem wfc_C6_amended (n : ℕ) (g : Grid) (x y : ℕ) (o : List ℕ)
    (h : (∃ t, getCell g x y = .collapsed t) ∨ getCell g x y = .superpos []) :
    collapseCell n g x y none o = (false, g, o) :=
  collapseCell_none_noop n g x y o h

/-- C6 witness: concrete no-op on the empty-superposition cell. -/
theorem wfc_C6_witness :
    collapseCell 3 c6Grid 0 0 none [5] = (false, c6Grid, [5]) :=
  wfc_C6_amended 3 c6Grid 0 0 [5] (Or.inr (by decide))

/-- C7: `find_min_entropy_cell` returns `None` exactly when no non-empty
superposition cell remains; any returned cell is a non-empty superposition
cell of globally minimal entropy; every cell attaining the minimum is
reachable by some random draw (the choice pool is all of `min_cells`, not
just the first found); and on a fully pre-collapsed 3×3 grid it returns
`None` immediately and the main loop performs zero collapses. -/
theorem wfc_C7 (n : ℕ) (g : Grid) :
    (∀ o : List ℕ, findMinEntropyCell n g o = none ↔
      ∀ p ∈ coords n, candidateCell g p = false) ∧
    (∀ (o : List ℕ) (c : ℕ × ℕ), findMinEntropyCell n g o = some c →
      c ∈ coords n ∧ candidateCell g c = true ∧
      ∀ c' ∈ coords n, candidateCell g c' = true →
        cellEntropy g c ≤ cellEntropy g c') ∧
    (∀ c ∈ minEntropyCells n g, ∃ o, findMinEntropyCell n g o = some c) ∧
    (∀ c ∈ coords n, candidateCell g c = true →
      (∀ c' ∈ coords n, candidateCell g c' = true →
        cellEntropy g c ≤ cellEntropy g c') → c ∈ minEntropyCells n g) ∧
    (findMinEntropyCell 3 preCollapsedGrid [] = none ∧
      loopWFC 3 (superposCount preCollapsedGrid) preCollapsedGrid [] =
        preCollapsedGrid) := by
  refine ⟨fun o => findMin_none_iff n g o, ?_, ?_,
    (minEntropyCells_spec n g).2.2, by decide⟩
  · intro o c hc
    exact (minEntropyCells_spec n g).2.1 c (findMin_mem hc)
  · intro c hc
    exact findMin_exists_oracle hc

/-- C7 witness: the pre-collapsed grid has no candidate cells, so the
scan returns `None`. -/
theorem wfc_C7_witness : findMinEntropyCell 3 preCollapsedGrid [] = none :=
  ((wfc_C7 3 preCollapsedGrid).1 []).mpr (by decide)

/-- C8: for a collapsed host cell, each `(cell, object type)` pair makes
at most one placement attempt; a record is emitted iff the object's
terrain list admits the cell's type, the slope lies in the inclusive
`[min_slope, max_slope]` range and the 0.3-probability coin succeeds; the
emitted record's position is the grid coordinate plus the drawn sub-cell
offsets, and the realization call receives that position scaled by the
cell size with height `HEIGHT_VALUES[t] * 0.5`; offsets drawn in
`[-0.4, 0.4]` keep the position within that band around the cell. In
particular a `plateau` cell with slope 0 is eligible for `house`, and a
`mountain_peak` cell is never eligible for `house` at any slope. -/
theorem wfc_C8 :
    (∀ (cellSize slope : ℚ) (x y : ℕ) (t : TerrainType)
        (ok : ObjKind × ObjectSpec) (o : List ℚ),
      (tryPlaceObj cellSize (.collapsed t) slope x y ok o).1.length ≤ 1 ∧
      ((tryPlaceObj cellSize (.collapsed t) slope x y ok o).1 ≠ [] ↔
        (t ∈ ok.2.valid_terrain ∧ ok.2.min_slope ≤ slope ∧
          slope ≤ ok.2.max_slope ∧ o.headD 0 < 3/10)) ∧
      (∀ rec ∈ (tryPlaceObj cellSize (.collapsed t) slope x y ok o).1,
        rec.kind = ok.1 ∧ rec.terrain = t ∧
        rec.posX = (x : ℚ) + o.tail.headD 0 ∧
        rec.posY = (y : ℚ) + o.tail.tail.headD 0) ∧
      (∀ rc ∈ (tryPlaceObj cellSize (.collapsed t) slope x y ok o).2.1,
        rc.kind = ok.1 ∧
        rc.locX = ((x : ℚ) + o.tail.headD 0) * cellSize ∧
        rc.locY = ((y : ℚ) + o.tail.tail.headD 0) * cellSize ∧
        rc.locZ = HEIGHT_VALUES t * (1/2)) ∧
      (-(2/5) ≤ o.tail.headD 0 → o.tail.headD 0 ≤ 2/5 →
        ∀ rec ∈ (tryPlaceObj cellSize (.collapsed t) slope x y ok o).1,
          (x : ℚ) - 2/5 ≤ rec.posX ∧ rec.posX ≤ (x : ℚ) + 2/5)) ∧
    (∀ ok ∈ OBJECT_TYPES, ok.1 = ObjKind.house →
      (tryPlaceObj 2 (.collapsed plateau) 0 0 0 ok [0]).1 ≠ [] ∧
      ∀ (slope : ℚ) (o : List ℚ),
        (tryPlaceObj 2 (.collapsed mountain_peak) slope 0 0 ok o).1 = []) := by
  constructor
  · intro cellSize slope x y t ok o
    unfold tryPlaceObj
    by_cases h1 : (cellMatches (.collapsed t) ok.2.valid_terrain : Prop) ∧
        ok.2.min_slope ≤ slope ∧ slope ≤ ok.2.max_slope
    · rw [if_pos h1]
      have hmem : t ∈ ok.2.valid_terrain := by
        have := h1.1
        simpa [cellMatches] using this
      by_cases h2 : o.headD 0 < 3/10
      · rw [if_pos h2]
        refine ⟨by simp, ?_, ?_, ?_, ?_⟩
        · simp only [ne_eq, List.cons_ne_nil, not_false_iff, true_iff]
          exact ⟨hmem, h1.2.1, h1.2.2, h2⟩
        · intro rec hrec
          rw [List.mem_singleton] at hrec
          subst hrec
          exact ⟨rfl, rfl, rfl, rfl⟩
        · intro rc hrc
          rw [List.mem_singleton] at hrc
          subst hrc
          exact ⟨rfl, rfl, rfl, rfl⟩
        · intro hlo hhi rec hrec
          rw [List.mem_singleton] at hrec
          subst hrec
          constructor
          · show (x : ℚ) - 2/5 ≤ (x : ℚ) + o.tail.headD 0
            linarith
          · show (x : ℚ) + o.tail.headD 0 ≤ (x : ℚ) + 2/5
            linarith
      · rw [if_neg h2]
        refine ⟨by simp, ?_, by simp, by simp, by simp⟩
        simp only [ne_eq, not_true_eq_false, false_iff]
        intro ⟨_, _, _, hcoin⟩
        exact h2 hcoin
    · rw [if_neg h1]
      refine ⟨by simp, ?_, by simp, by simp, by simp⟩
      simp only [ne_eq, not_true_eq_false, false_iff]
      intro ⟨hm, hr1, hr2, _⟩
      exact h1 ⟨by simpa [cellMatches] using hm, hr1, hr2⟩
  · intro ok hok heq
    have hok' : ok = (ObjKind.house, ⟨[plateau, valley_floor], 0, 1/5, 1/2⟩) ∨
        ok = (ObjKind.tree, ⟨[slope, plateau, valley_floor], 0, 3/5, 3/10⟩) ∨
        ok = (ObjKind.rock,
          ⟨[mountain_peak, slope, plateau, valley_floor, shoreline],
           0, 4/5, 1/5⟩) := by
      simpa [OBJECT_TYPES] using hok
    have hhouse : ok = (ObjKind.house, ⟨[plateau, valley_floor], 0, 1/5, 1/2⟩) := by
      rcases hok' with h | h | h
      · exact h
      · rw [h] at heq; cases heq
      · rw [h] at heq; cases heq
    subst hhouse
    constructor
    · have hcond : (cellMatches (.collapsed plateau) [plateau, valley_floor] : Prop) ∧
          (0 : ℚ) ≤ 0 ∧ (0 : ℚ) ≤ 1/5 := ⟨by decide, le_refl 0, by norm_num⟩
      unfold tryPlaceObj
      rw [if_pos hcond, if_pos (show ([0] : List ℚ).headD 0 < 3/10 by norm_num)]
      simp
    · intro slope o
      unfold tryPlaceObj
      rw [if_neg]
      rintro ⟨hc, -⟩
      revert hc
      decide

/-- C8 witness: the house/plateau eligibility instance. -/
theorem wfc_C8_witness :
    (tryPlaceObj 2 (.collapsed plateau) 0 0 0
      (ObjKind.house, ⟨[plateau, valley_floor], 0, 1/5, 1/2⟩) [0]).1 ≠ [] :=
  (wfc_C8.2 (ObjKind.house, ⟨[plateau, valley_floor], 0, 1/5, 1/2⟩)
    (by simp [OBJECT_TYPES]) rfl).1

/-- C9: the generator is a deterministic function of its random streams:
two complete runs (solve plus placement pass) with the same grid size,
cell size and random draws produce the same final grid and the same
ordered placement records and realization calls. -/
theorem wfc_C9 (n : ℕ) (cellSize : ℚ) (o₁ o₂ : List ℕ) (po₁ po₂ : List ℚ)
    (ho : o₁ = o₂) (hpo : po₁ = po₂) :
    runFull n cellSize o₁ po₁ = runFull n cellSize o₂ po₂ := by
  rw [ho, hpo]

/-- C9 witness: concrete two-run determinism instance. -/
theorem wfc_C9_witness : runFull 3 2 [] [] = runFull 3 2 [] [] :=
  wfc_C9 3 2 [] [] [] [] rfl rfl

/-- C10: the placement pass requires every cell to be collapsed: on a
fully collapsed grid every height lookup succeeds and the pass returns
its records, while any remaining superposition cell makes the height
lookup error out (the error branch is reachable — e.g. from the
contradiction run of C2's grid); the cell is not skipped. -/
theorem wfc_C10 :
    (∀ (n : ℕ) (g : Grid) (cellSize : ℚ) (o : List ℚ),
      (∀ p ∈ coords n, ∃ t, getCell g p.1 p.2 = .collapsed t) →
      ∃ r, placeEnvironmentalObjects n g cellSize o = some r) ∧
    (∀ (n : ℕ) (g : Grid) (cellSize : ℚ) (o : List ℚ) (q : ℕ × ℕ)
        (l : List TerrainType),
      2 ≤ n → q ∈ coords n → getCell g q.1 q.2 = .superpos l →
      placeEnvironmentalObjects n g cellSize o = none) ∧
    placeEnvironmentalObjects 5
      (runGrid 5 [0, 1, 0, 1, 0, 1, 0, 1, 3, 1, 8, 3, 8, 3, 0, 0, 1, 2]) 2 []
      = none := by
  have h2 : ∀ (n : ℕ) (g : Grid) (cellSize : ℚ) (o : List ℚ) (q : ℕ × ℕ)
      (l : List TerrainType),
      2 ≤ n → q ∈ coords n → getCell g q.1 q.2 = .superpos l →
      placeEnvironmentalObjects n g cellSize o = none :=
    fun n g cellSize o q l hn hq hcell => placeEnv_none cellSize hn hq hcell o
  refine ⟨?_, h2, ?_⟩
  · intro n g cellSize o hall
    exact placeEnv_some cellSize hall o
  · exact h2 5 _ 2 [] (3, 0) [] (by omega) (by decide) (by decide)

/-- C10 witness: the pass succeeds on a fully collapsed 3×3 grid. -/
theorem wfc_C10_witness :
    (placeEnvironmentalObjects 3 preCollapsedGrid 2 []).isSome = true := by
  have hall : ∀ p ∈ coords 3, ∃ t, getCell preCollapsedGrid p.1 p.2 = .collapsed t := by
    have h : ∀ p ∈ coords 3, getCell preCollapsedGrid p.1 p.2 = .collapsed plateau := by
      decide
    exact fun p hp => ⟨plateau, h p hp⟩
  obtain ⟨r, hr⟩ := wfc_C10.1 3 preCollapsedGrid 2 [] hall
  rw [hr]
  rfl
